import Mathlib

/-!
Verification of the Nutriscan OCR extraction pipeline
(`backend/scanner/services.py`) against its natural-language specification.

The Python code is shallowly embedded: strings are `List Char` (Lean `Char`
is a Unicode scalar value, as in Python), Python `float` values produced by
the parsers are modelled as exact rationals `ℚ`, Python dicts are modelled
as association lists in insertion order (Python dicts preserve insertion
order), and exceptions are modelled with `Except`.  The OCR engine
(`pytesseract`), the barcode engine (`pyzbar`) and pixel-level image
transforms are external effects: they are passed in as function parameters,
and the image type is opaque (only the "could not be read" condition, i.e.
`cv2.imread` returning `None`, matters to the control flow under study).
Regex character classes `\w` and `\s` are modelled on their ASCII meaning
(plus the explicit Arabic separator characters used by the source); all
concrete inputs used in theorems below are ASCII.
-/

namespace Nutriscan

/-- Characters matched by the regex class `\s` (ASCII part). -/
def pySpace (c : Char) : Bool :=
  c = ' ' || c = '\t' || c = '\n' || c = '\r' || c = '\x0b' || c = '\x0c'

/-- Characters matched by the regex class `\w` (ASCII part):
alphanumeric or underscore. -/
def pyWordChar (c : Char) : Bool :=
  c.isAlphanum || c = '_'

/-- Drop trailing characters satisfying `p`. -/
def dropTrail (p : Char → Bool) (l : List Char) : List Char :=
  (l.reverse.dropWhile p).reverse

/-- Python `str.strip()`: remove leading and trailing whitespace. -/
def pyStrip (l : List Char) : List Char :=
  dropTrail pySpace (l.dropWhile pySpace)

mutual

/-- Helper for `collapseWs`: copying mode. -/
def collapseGo : List Char → List Char
  | [] => []
  | c :: rest => if pySpace c then ' ' :: collapseSkip rest else c :: collapseGo rest

/-- Helper for `collapseWs`: inside a whitespace run that was already
replaced by a single `' '`. -/
def collapseSkip : List Char → List Char
  | [] => []
  | c :: rest => if pySpace c then collapseSkip rest else c :: collapseGo rest

end

/-- Python `re.sub(r'\s+', ' ', s)`: replace each maximal whitespace run by
a single space. -/
def collapseWs (l : List Char) : List Char :=
  collapseGo l

/-- Python `s.split(sep)` for a single separator character (no run
collapsing, empty fields kept). -/
def splitChar (sep : Char) (l : List Char) : List (List Char) :=
  l.foldr
    (fun c acc =>
      if c = sep then [] :: acc
      else
        match acc with
        | h :: t => (c :: h) :: t
        | [] => [[c]])
    [[]]

/-- Does `pat` occur as a leading block of `s`? -/
def prefAt : List Char → List Char → Bool
  | [], _ => true
  | _ :: _, [] => false
  | p :: ps, c :: cs => p = c && prefAt ps cs

/-- Python `pat in s`: substring containment. -/
def hasSub (pat : List Char) : List Char → Bool
  | [] => prefAt pat []
  | c :: rest => prefAt pat (c :: rest) || hasSub pat rest

/-- Index of the first occurrence of `pat` in `s`, if any. -/
def findSub (pat : List Char) : List Char → Option Nat
  | [] => if prefAt pat [] then some 0 else none
  | c :: rest =>
    if prefAt pat (c :: rest) then some 0
    else (findSub pat rest).map (· + 1)

/-- Python `s.split(pat)[1]` for a nonempty pattern `pat` occurring in `s`:
the text strictly between the first occurrence of `pat` and the next
occurrence (or the rest of `s` if `pat` occurs only once).  Returns `[]`
when `pat` does not occur (that case is unreachable under the caller's
guard). -/
def part1 (pat s : List Char) : List Char :=
  match findSub pat s with
  | none => []
  | some i =>
    let t := s.drop (i + pat.length)
    match findSub pat t with
    | none => t
    | some j => t.take j

/-- Helper for `pySplit`; the first argument is the current word, reversed. -/
def pySplitGo : List Char → List Char → List (List Char)
  | acc, [] => if acc.isEmpty then [] else [acc.reverse]
  | acc, c :: rest =>
    if pySpace c then
      if acc.isEmpty then pySplitGo [] rest else acc.reverse :: pySplitGo [] rest
    else pySplitGo (c :: acc) rest

/-- Python `str.split()` with no argument: split on whitespace runs,
dropping empty fields. -/
def pySplit (l : List Char) : List (List Char) :=
  pySplitGo [] l

/-- Python `str.isdigit()` (ASCII digits). -/
def pyIsDigit (l : List Char) : Bool :=
  !l.isEmpty && l.all Char.isDigit

/-- The fixed bilingual header keyword set of `OCRService._parse_ingredients`. -/
def ingredients_keywords : List String :=
  ["ingredients", "مكونات", "ingrédients", "ingredientes",
   "zutaten", "ingredienti", "składniki"]

/-- Separator class `[,;،؛\n\r]` of `OCRService._extract_ingredients_from_text`. -/
def ingredientSeps : List Char := [',', ';', '،', '؛', '\n', '\r']

/-- Split on the ingredient separator class (empty fields kept), modelling
`re.split(r'[,;،؛\n\r]', text)`. -/
def splitSeps (l : List Char) : List (List Char) :=
  l.foldr
    (fun c acc =>
      if ingredientSeps.contains c then [] :: acc
      else
        match acc with
        | h :: t => (c :: h) :: t
        | [] => [[c]])
    [[]]

/-- Character class `[-:\s]` trimmed from token edges by
`OCRService._extract_ingredients_from_text`. -/
def dashColonSpace (c : Char) : Bool :=
  c = '-' || c = ':' || pySpace c

/-- `OCRService._extract_ingredients_from_text`: split a line on the
separator class, trim each token, strip leading/trailing `[-:\s]`, drop
empty, short (≤ 2 chars) and all-digit tokens, collapse inner whitespace,
and append the survivors to the accumulator. -/
def extract_ingredients_from_text (t : List Char) (acc : List (List Char)) :
    List (List Char) :=
  (splitSeps t).foldl
    (fun acc item =>
      let item := pyStrip item
      let item := item.dropWhile dashColonSpace
      let item := dropTrail dashColonSpace item
      if !item.isEmpty && item.length > 2 && !pyIsDigit item then
        acc ++ [collapseWs item]
      else acc)
    acc

/-- The line loop of `OCRService._parse_ingredients`: a two-state scan over
the lines.  In the Scanning state (`inSec = false`) a line containing any
header keyword switches to Collecting and harvests the text after the
keyword from the **lowercased** line (Python splits `line.lower()` on the
keyword); in the Collecting state every line is tokenized with its original
casing. -/
def parseLinesGo : List (List Char) → Bool → List (List Char) → List (List Char)
  | [], _, acc => acc
  | line :: rest, inSec, acc =>
    let line := pyStrip line
    if line.isEmpty then parseLinesGo rest inSec acc
    else
      let lower := line.map Char.toLower
      if ingredients_keywords.any (fun kw => hasSub kw.data lower) then
        let acc :=
          ingredients_keywords.foldl
            (fun acc kw =>
              if hasSub kw.data lower then
                extract_ingredients_from_text (part1 kw.data lower) acc
              else acc)
            acc
        parseLinesGo rest true acc
      else if inSec then parseLinesGo rest inSec (extract_ingredients_from_text line acc)
      else parseLinesGo rest inSec acc

/-- The raw (pre-deduplication) ingredient accumulator of
`OCRService._parse_ingredients`: normalize whitespace, split into lines and
run the two-state line scan. -/
def rawIngredients (text : String) : List (List Char) :=
  if text.data.isEmpty then []
  else parseLinesGo (splitChar '\n' (collapseWs (pyStrip text.data))) false []

/-- Characters kept by the cleanup regex `re.sub(r'[^\w\s\-()]', '', ...)`
of `OCRService._parse_ingredients`. -/
def keepChar (c : Char) : Bool :=
  pyWordChar c || pySpace c || c = '-' || c = '(' || c = ')'

/-- Cleanup applied to each accumulated ingredient before deduplication:
delete every character outside `[\w\s\-()]` (anywhere in the token), then
trim. -/
def cleanTok (l : List Char) : List Char :=
  pyStrip (l.filter keepChar)

/-- The deduplication loop of `OCRService._parse_ingredients`: clean each
token, keep it when nonempty, longer than 2 characters and its lowercase
form was not seen before (first occurrence wins, order preserved). -/
def dedupGo : List (List Char) → List (List Char) → List (List Char)
  | [], _ => []
  | i :: rest, seen =>
    if !(cleanTok i).isEmpty && (cleanTok i).length > 2 &&
        !seen.contains ((cleanTok i).map Char.toLower) then
      cleanTok i :: dedupGo rest (((cleanTok i).map Char.toLower) :: seen)
    else dedupGo rest seen

/-- `OCRService._parse_ingredients`: two-state line scan, then
case-insensitive deduplication, then cap at 50 entries. -/
def parse_ingredients (text : String) : List String :=
  ((dedupGo (rawIngredients text) []).take 50).map String.mk

end Nutriscan

/-! ### Nutrition parsing (`OCRService._parse_nutrition_facts`)

Each per-nutrient regex of the source has the shape
`(?:ALT₁|ALT₂|…)[:\s]*(\d+(?:\.\d+)?)\s*(?:UNIT)?` where every alternative
is a literal possibly containing `\s*` gaps and an optional trailing `s?`.
Because the character sets of consecutive pieces are disjoint (`[:\s]`
contains no digit, `\s` never starts the following literal, and an optional
`s` is always followed by `[:\s]*\d`, which rejects `s` either way), greedy
matching without backtracking inside an alternative is equivalent to
Python's backtracking search; alternatives are still tried in order at each
position, and positions left to right, which is `re.findall`'s
leftmost-first semantics.  Only the first match's capture group is used by
the source.  The trailing `\s*(?:UNIT)?` is entirely optional and cannot
fail, so it is irrelevant to the captured number. -/

namespace Nutriscan

/-- One piece of a keyword alternative: a literal, a `\s*` gap, or an
optional trailing `s` (`s?`). -/
inductive Tok where
  | lit : List Char → Tok
  | ws : Tok
  | optS : Tok

/-- A keyword alternative is a sequence of pieces. -/
abbrev Alt := List Tok

/-- Match an alternative at the head of `s`, returning the remainder. -/
def matchToks : List Tok → List Char → Option (List Char)
  | [], s => some s
  | .lit l :: ts, s => if prefAt l s then matchToks ts (s.drop l.length) else none
  | .ws :: ts, s => matchToks ts (s.dropWhile pySpace)
  | .optS :: ts, s =>
    match s with
    | 's' :: r => matchToks ts r
    | _ => matchToks ts s

/-- Match `[:\s]*(\d+(?:\.\d+)?)` at the head of `s`, returning the
captured number string. -/
def numberAt (s : List Char) : Option (List Char) :=
  let s := s.dropWhile (fun c => c = ':' || pySpace c)
  let ds := s.takeWhile Char.isDigit
  if ds.isEmpty then none
  else
    match s.drop ds.length with
    | '.' :: r2 =>
      let fs := r2.takeWhile Char.isDigit
      if fs.isEmpty then some ds else some (ds ++ '.' :: fs)
    | _ => some ds

/-- Try the alternatives in order at the current position; an alternative
whose keyword matches but is not followed by a number does not abort the
position (the next alternative is tried). -/
def tryAlts (alts : List Alt) (s : List Char) : Option (List Char) :=
  match alts with
  | [] => none
  | a :: rest =>
    match matchToks a s with
    | some rem =>
      match numberAt rem with
      | some n => some n
      | none => tryAlts rest s
    | none => tryAlts rest s

/-- Scan positions left to right for the first match of the pattern,
returning the first captured number string (the `matches[0]` of
`re.findall`). -/
def scanFirst (alts : List Alt) : List Char → Option (List Char)
  | [] => tryAlts alts []
  | c :: rest =>
    match tryAlts alts (c :: rest) with
    | some n => some n
    | none => scanFirst alts rest

/-- The 14 per-nutrient patterns of `OCRService._parse_nutrition_facts`, in
the source's insertion order, each given as its ordered alternatives. -/
def nutritionPatterns : List (String × List Alt) :=
  [("energy",
     [[.lit "energy".data], [.lit "calorie".data, .optS],
      [.lit "طاقة".data], [.lit "سعرات".data]]),
   ("protein", [[.lit "protein".data], [.lit "بروتين".data]]),
   ("total_fat",
     [[.lit "total".data, .ws, .lit "fat".data], [.lit "fat".data],
      [.lit "دهون".data]]),
   ("saturated_fat",
     [[.lit "saturated".data, .ws, .lit "fat".data],
      [.lit "دهون".data, .ws, .lit "مشبعة".data]]),
   ("trans_fat",
     [[.lit "trans".data, .ws, .lit "fat".data],
      [.lit "دهون".data, .ws, .lit "متحولة".data]]),
   ("cholesterol", [[.lit "cholesterol".data], [.lit "كوليسترول".data]]),
   ("sodium", [[.lit "sodium".data], [.lit "صوديوم".data]]),
   ("total_carbs",
     [[.lit "total".data, .ws, .lit "carb".data], [.lit "carbohydrate".data],
      [.lit "كربوهيدرات".data]]),
   ("dietary_fiber",
     [[.lit "dietary".data, .ws, .lit "fiber".data], [.lit "fiber".data],
      [.lit "fibre".data], [.lit "ألياف".data]]),
   ("sugars",
     [[.lit "total".data, .ws, .lit "sugar".data, .optS],
      [.lit "sugar".data, .optS], [.lit "سكر".data]]),
   ("added_sugars",
     [[.lit "added".data, .ws, .lit "sugar".data, .optS],
      [.lit "سكر".data, .ws, .lit "مضاف".data]]),
   ("vitamin_c",
     [[.lit "vitamin".data, .ws, .lit "c".data],
      [.lit "فيتامين".data, .ws, .lit "ج".data]]),
   ("calcium", [[.lit "calcium".data], [.lit "كالسيوم".data]]),
   ("iron", [[.lit "iron".data], [.lit "حديد".data]])]

/-- Numeric value of a digit string. -/
def natOfDigits (l : List Char) : Nat :=
  l.foldl (fun a c => 10 * a + (c.toNat - '0'.toNat)) 0

/-- Value of a `\d+(\.\d+)?`-shaped (more generally, digits-and-one-dot)
number string, as an exact rational. -/
def ratOfNumStr (l : List Char) : ℚ :=
  let ip := l.takeWhile (· ≠ '.')
  match l.drop ip.length with
  | '.' :: fs => mkRat (natOfDigits ip * 10 ^ fs.length + natOfDigits fs) (10 ^ fs.length)
  | _ => (natOfDigits ip : ℚ)

/-- Python `float(s)` on strings drawn from digits and dots: defined (and
modelled exactly) when the string has at least one digit and at most one
dot, a conversion error otherwise. -/
def pyFloat? (l : List Char) : Option ℚ :=
  if !l.isEmpty && l.all (fun c => c.isDigit || c = '.')
      && (l.filter (· = '.')).length ≤ 1 && l.any Char.isDigit then
    some (ratOfNumStr l)
  else none

/-- One iteration of the nutrient loop of
`OCRService._parse_nutrition_facts`: find the first match of the nutrient's
pattern in the lowercased text, convert the captured number (`float`, with
conversion errors caught and the nutrient skipped) and keep it if
non-negative. -/
def nutriStep (lower : List Char) (m : List (String × ℚ)) (p : String × List Alt) :
    List (String × ℚ) :=
  match scanFirst p.2 lower with
  | none => m
  | some numStr =>
    match pyFloat? numStr with
    | none => m
    | some v => if 0 ≤ v then m ++ [(p.1, v)] else m

/-- `OCRService._parse_nutrition_facts`: run the nutrient loop over the 14
patterns in insertion order.  The Python dict is modelled as an association
list in insertion order. -/
def parse_nutrition_facts (text : String) : List (String × ℚ) :=
  if text.data.isEmpty then []
  else nutritionPatterns.foldl (nutriStep (text.data.map Char.toLower)) []

/-- Python `float(s)` as an `Except`-typed operation: raises `ValueError`
on malformed input. -/
def floatE (l : List Char) : Except String ℚ :=
  match pyFloat? l with
  | some q => Except.ok q
  | none => Except.error "could not convert string to float"

/-- One iteration of the nutrient loop with the exception structure made
explicit: the `float` conversion may raise, and the source's
`try/except (ValueError, IndexError): continue` catches it per nutrient. -/
def nutriStepE (lower : List Char) (acc : Except String (List (String × ℚ)))
    (p : String × List Alt) : Except String (List (String × ℚ)) :=
  match acc with
  | Except.error e => Except.error e
  | Except.ok m =>
    match scanFirst p.2 lower with
    | none => Except.ok m
    | some numStr =>
      match floatE numStr with
      | Except.error _ => Except.ok m
      | Except.ok v => Except.ok (if 0 ≤ v then m ++ [(p.1, v)] else m)

/-- `OCRService._parse_nutrition_facts` in the `Except` monad. -/
def parse_nutrition_factsE (text : String) : Except String (List (String × ℚ)) :=
  if text.data.isEmpty then Except.ok []
  else nutritionPatterns.foldl (nutriStepE (text.data.map Char.toLower)) (Except.ok [])

/-! ### Confidence scoring (`OCRService._calculate_confidence`) -/

/-- The fixed bilingual food/nutrition keyword vocabulary of
`OCRService._calculate_confidence`. -/
def food_keywords : List String :=
  ["ingredients", "nutrition", "calories", "protein", "fat", "carb",
   "مكونات", "سعرات", "بروتين", "دهون", "كربوهيدرات",
   "vitamin", "mineral", "sodium", "sugar", "fiber"]

/-- `OCRService._calculate_confidence`: 0 for empty/short text, 20 for a
single word, otherwise `min(100, max(0, base + bonus - penalty))` with
`base = min(70, 3·words)`, `bonus = min(25, 5·keyword_hits)` and
`penalty = ⌊30 · specials / length⌋` where specials are the characters
matching `[^\w\s]`.  The float ratio of the source is modelled as an exact
rational, so the floor is Nat division. -/
def calculate_confidence (text : String) : ℤ :=
  let t := text.data
  if t.isEmpty || (pyStrip t).length < 5 then 0
  else
    let words := pySplit t
    if words.length < 2 then 20
    else
      let keyword_count :=
        (words.filter (fun w =>
          food_keywords.any (fun kw => hasSub kw.data (w.map Char.toLower)))).length
      let base : Nat := min 70 (words.length * 3)
      let bonus : Nat := min 25 (keyword_count * 5)
      let specials := (t.filter (fun c => !(pyWordChar c || pySpace c))).length
      let penalty : Nat := 30 * specials / t.length
      min 100 (max 0 ((base : ℤ) + (bonus : ℤ) - (penalty : ℤ)))

/-- Confidence formula exactly as the claim words it: identical to the code
except that a special character is one that is neither **alphanumeric** nor
whitespace (the code instead uses `[^\w\s]`, whose `\w` also covers the
underscore), and the clamp is written `clamp(x, 0, 100)`. -/
def confidenceClaimed (text : String) : ℤ :=
  let t := text.data
  if (pyStrip t).length < 5 then 0
  else
    let words := pySplit t
    if words.length < 2 then 20
    else
      let keyword_count :=
        (words.filter (fun w =>
          food_keywords.any (fun kw => hasSub kw.data (w.map Char.toLower)))).length
      let base : Nat := min 70 (words.length * 3)
      let bonus : Nat := min 25 (keyword_count * 5)
      let specials := (t.filter (fun c => !(c.isAlphanum || pySpace c))).length
      let penalty : Nat := 30 * specials / t.length
      max 0 (min 100 ((base : ℤ) + (bonus : ℤ) - (penalty : ℤ)))

/-- Confidence formula as the amended claim words it: special characters
are those that are neither word characters (alphanumeric or underscore)
nor whitespace; otherwise identical to `confidenceClaimed`. -/
def confidenceAmended (text : String) : ℤ :=
  let t := text.data
  if (pyStrip t).length < 5 then 0
  else
    let words := pySplit t
    if words.length < 2 then 20
    else
      let keyword_count :=
        (words.filter (fun w =>
          food_keywords.any (fun kw => hasSub kw.data (w.map Char.toLower)))).length
      let base : Nat := min 70 (words.length * 3)
      let bonus : Nat := min 25 (keyword_count * 5)
      let specials := (t.filter (fun c => !(pyWordChar c || pySpace c))).length
      let penalty : Nat := 30 * specials / t.length
      max 0 (min 100 ((base : ℤ) + (bonus : ℤ) - (penalty : ℤ)))

/-! ### Range validation (`ProductService._clean_nutrition_facts`,
`ValidationService.validate_nutrition_facts`) -/

/-- Association-list lookup (models Python `key in dict` / `dict[key]` on
the literal range tables). -/
def lookupRange (k : String) : List (String × ℚ × ℚ) → Option (ℚ × ℚ)
  | [] => none
  | (k', r) :: rest => if k = k' then some r else lookupRange k rest

/-- The `valid_nutrients` range table of
`ProductService._clean_nutrition_facts` (14 keys). -/
def valid_nutrients : List (String × ℚ × ℚ) :=
  [("energy", 0, 9000),
   ("protein", 0, 100),
   ("total_fat", 0, 100),
   ("saturated_fat", 0, 100),
   ("trans_fat", 0, 100),
   ("cholesterol", 0, 1000),
   ("sodium", 0, 10000),
   ("total_carbs", 0, 100),
   ("dietary_fiber", 0, 100),
   ("sugars", 0, 100),
   ("added_sugars", 0, 100),
   ("vitamin_c", 0, 1000),
   ("calcium", 0, 2000),
   ("iron", 0, 100)]

/-- The `ranges` table of `ValidationService.validate_nutrition_facts`
(13 keys: `added_sugars` does not appear, and `trans_fat` is bounded by 50
instead of 100). -/
def validationRanges : List (String × ℚ × ℚ) :=
  [("energy", 0, 9000),
   ("protein", 0, 100),
   ("total_fat", 0, 100),
   ("saturated_fat", 0, 100),
   ("trans_fat", 0, 50),
   ("cholesterol", 0, 1000),
   ("sodium", 0, 10000),
   ("total_carbs", 0, 100),
   ("dietary_fiber", 0, 100),
   ("sugars", 0, 100),
   ("vitamin_c", 0, 1000),
   ("calcium", 0, 2000),
   ("iron", 0, 100)]

/-- A Python value arriving in a nutrition dict: a string, a number
(`int`/`float`), or anything else. -/
inductive PyVal where
  | str : String → PyVal
  | num : ℚ → PyVal
  | other : PyVal
deriving DecidableEq

/-- One loop iteration of `ProductService._clean_nutrition_facts`: coerce
the value to a number (strings are stripped to `[\d.]` first; a failed
`float` or a non-numeric value skips the entry via the `try/except`), then
keep a known key exactly when inside its table range and an unknown key
exactly when non-negative. -/
def cleanEntry (kv : String × PyVal) : Option (String × ℚ) :=
  let v? : Option ℚ :=
    match kv.2 with
    | PyVal.str s =>
      let f := s.data.filter (fun c => c.isDigit || c = '.')
      if f.isEmpty then none else pyFloat? f
    | PyVal.num q => some q
    | PyVal.other => none
  match v? with
  | none => none
  | some value =>
    match lookupRange kv.1 valid_nutrients with
    | some (lo, hi) =>
      if lo ≤ value ∧ value ≤ hi then some (kv.1, value) else none
    | none => if 0 ≤ value then some (kv.1, value) else none

/-- `ProductService._clean_nutrition_facts`. -/
def clean_nutrition_facts (l : List (String × PyVal)) : List (String × ℚ) :=
  if l.isEmpty then [] else l.filterMap cleanEntry

/-- One loop iteration of `ValidationService.validate_nutrition_facts`:
keep a known key exactly when inside its table range and an unknown key
exactly when non-negative (the `float(value)` coercion is the identity on
numeric input). -/
def validateEntry (kv : String × ℚ) : Option (String × ℚ) :=
  match lookupRange kv.1 validationRanges with
  | some (lo, hi) =>
    if lo ≤ kv.2 ∧ kv.2 ≤ hi then some kv else none
  | none => if 0 ≤ kv.2 then some kv else none

/-- `ValidationService.validate_nutrition_facts`. -/
def validate_nutrition_facts (l : List (String × ℚ)) : List (String × ℚ) :=
  if l.isEmpty then [] else l.filterMap validateEntry

/-- Specification-side acceptance predicate for a range table, following
the spec's words: a known key passes exactly when its value is inside the
table range, an unknown key exactly when its value is non-negative. -/
def rangePass (tbl : List (String × ℚ × ℚ)) (p : String × ℚ) : Bool :=
  match lookupRange p.1 tbl with
  | some (lo, hi) => decide (lo ≤ p.2 ∧ p.2 ≤ hi)
  | none => decide (0 ≤ p.2)

/-! ### Extraction operations (`OCRService.extract_*`)

The image is opaque: `cv2.imread` returning `None` (an unreadable buffer)
is the `none` case, and the pixel transforms of `preprocess_image` are
abstracted away (no claim concerns pixel content).  The OCR engine is a
parameter mapping a Tesseract configuration string to either recognized
text or an engine error; the barcode engine is a parameter mapping an image
variant to its list of decoded symbols.  Each `extract_*` method wraps its
whole body in `try/except` and returns a structured default on any
exception, so its `Except`-typed embedding always returns `Except.ok`. -/

/-- Decidable equality for `Except`, used to evaluate the extraction
operations on concrete inputs. -/
instance {ε α : Type} [DecidableEq ε] [DecidableEq α] : DecidableEq (Except ε α) := fun
  | Except.ok a, Except.ok b =>
    if h : a = b then isTrue (by rw [h])
    else isFalse (fun hc => by cases hc; exact h rfl)
  | Except.ok _, Except.error _ => isFalse (fun hc => by cases hc)
  | Except.error _, Except.ok _ => isFalse (fun hc => by cases hc)
  | Except.error e, Except.error f =>
    if h : e = f then isTrue (by rw [h])
    else isFalse (fun hc => by cases hc; exact h rfl)

/-- Opaque preprocessed-image type. -/
abbrev PImg := Unit

/-- `OCRService.preprocess_image`: raises `ValueError("Could not read
image")` when the buffer could not be decoded, otherwise returns the
enhanced image (enhancement modelled as the identity on the opaque image). -/
def preprocess_image (img : Option PImg) : Except String PImg :=
  match img with
  | none => Except.error "Could not read image"
  | some i => Except.ok i

/-- Tesseract configuration for English (`self.config_eng`). -/
def config_eng : String := "--oem 3 --psm 6 -l eng"

/-- Tesseract configuration for Arabic (`self.config_ara`). -/
def config_ara : String := "--oem 3 --psm 6 -l ara"

/-- Tesseract configuration for combined bilingual recognition
(`self.config_multi`). -/
def config_multi : String := "--oem 3 --psm 6 -l eng+ara"

/-- The configuration trial order of `extract_ingredients` /
`extract_nutrition_facts`: `[self.config_multi, self.config_eng,
self.config_ara]`. -/
def ocrConfigs : List String := [config_multi, config_eng, config_ara]

/-- One iteration of the configuration loop shared by
`extract_ingredients` and `extract_nutrition_facts`: run one
configuration, skip an engine error (inner `try/except: continue`), and
append the text when its stripped form is nonempty. -/
def collectStep (engine : String → Except String String) (acc : List String)
    (cfg : String) : List String :=
  match engine cfg with
  | Except.error _ => acc
  | Except.ok t => if (pyStrip t.data).isEmpty then acc else acc ++ [t]

/-- The configuration loop: collect the kept texts in trial order. -/
def collectTexts (engine : String → Except String String) : List String :=
  ocrConfigs.foldl (collectStep engine) []

/-- What one configuration contributes to `collectTexts`: nothing on an
engine error or whitespace-only text, its text otherwise. -/
def keepText (engine : String → Except String String) (cfg : String) : Option String :=
  match engine cfg with
  | Except.error _ => none
  | Except.ok t => if (pyStrip t.data).isEmpty then none else some t

/-- Python `max(best, u, key=len)` for two values: keep `best` unless `u`
is strictly longer (this is how `max` over a list treats ties: the first
maximal element wins). -/
def pickLonger (best u : String) : String :=
  if best.length < u.length then u else best

/-- Python `max(texts, key=len) if texts else ""`: the first text of
maximal length, or `""` for the empty list. -/
def firstMax : List String → String
  | [] => ""
  | t :: ts => ts.foldl pickLonger t

/-- Result of `OCRService.extract_ingredients`. -/
structure IngrResult where
  text : String
  ingredients : List String
  confidence : ℤ
deriving DecidableEq

/-- Result of `OCRService.extract_nutrition_facts`. -/
structure NutrResult where
  text : String
  nutrition_facts : List (String × ℚ)
  confidence : ℤ
deriving DecidableEq

/-- Result of `OCRService.extract_general_text`. -/
structure GenResult where
  text : String
  confidence : ℤ
deriving DecidableEq

/-- `OCRService.extract_ingredients`: preprocess (an unreadable image makes
`preprocess_image` raise, which the outer `except` turns into the empty
structured result), collect the multi-configuration texts, pick the
longest, parse and score it. -/
def extract_ingredients (img : Option PImg) (engine : String → Except String String) :
    Except String IngrResult :=
  match preprocess_image img with
  | Except.error _ => Except.ok ⟨"", [], 0⟩
  | Except.ok _ =>
    let best := firstMax (collectTexts engine)
    Except.ok ⟨best, parse_ingredients best, calculate_confidence best⟩

/-- `OCRService.extract_nutrition_facts`: same structure as
`extract_ingredients` with the nutrition parser. -/
def extract_nutrition_facts (img : Option PImg) (engine : String → Except String String) :
    Except String NutrResult :=
  match preprocess_image img with
  | Except.error _ => Except.ok ⟨"", [], 0⟩
  | Except.ok _ =>
    let best := firstMax (collectTexts engine)
    Except.ok ⟨best, parse_nutrition_facts best, calculate_confidence best⟩

/-- `OCRService.extract_general_text`: a single recognition pass under the
combined configuration; any exception (unreadable image or engine error —
this method has no inner `try`) yields the empty structured result. -/
def extract_general_text (img : Option PImg) (engine : String → Except String String) :
    Except String GenResult :=
  match preprocess_image img with
  | Except.error _ => Except.ok ⟨"", 0⟩
  | Except.ok _ =>
    match engine config_multi with
    | Except.error _ => Except.ok ⟨"", 0⟩
    | Except.ok t => Except.ok ⟨t, calculate_confidence t⟩

/-! ### Barcode decoding (`OCRService.extract_barcode`) -/

/-- The three image variants tried by `extract_barcode`, in source order. -/
inductive BVariant where
  | original
  | preprocessed
  | grayscale
deriving DecidableEq

/-- The fixed variant trial order (`approaches` in the source). -/
def barcode_approaches : List BVariant :=
  [BVariant.original, BVariant.preprocessed, BVariant.grayscale]

/-- A decoded barcode symbol: payload (`data`, already UTF-8 decoded) and
symbology name (`type`). -/
structure BSym where
  data : String
  symType : String
deriving DecidableEq

/-- Result of `OCRService.extract_barcode`.  The failure dict of the source
has no `type` key, modelled as `none`. -/
structure BarcodeResult where
  barcode : Option String
  symType : Option String
  confidence : ℤ
  text : String
deriving DecidableEq

/-- The variant loop of `extract_barcode`: return on the first variant
yielding at least one symbol, using the first symbol's payload and
symbology with confidence 100; otherwise the absent result with
confidence 0. -/
def barcodeLoop (decode : BVariant → List BSym) : List BVariant → BarcodeResult
  | [] => ⟨none, none, 0, ""⟩
  | v :: rest =>
    match decode v with
    | [] => barcodeLoop decode rest
    | s :: _ => ⟨some s.data, some s.symType, 100, s.data⟩

/-- Body of `OCRService.extract_barcode` before the outer `try/except`: an
unreadable image raises inside `preprocess_image` while the `approaches`
list is built, which the handler turns into the absent result. -/
def extract_barcode_core (img : Option PImg) (decode : BVariant → List BSym) :
    BarcodeResult :=
  match img with
  | none => ⟨none, none, 0, ""⟩
  | some _ => barcodeLoop decode barcode_approaches

/-- `OCRService.extract_barcode`: the outer `try/except` makes every path
return a structured result. -/
def extract_barcode (img : Option PImg) (decode : BVariant → List BSym) :
    Except String BarcodeResult :=
  Except.ok (extract_barcode_core img decode)

/-! ### Concrete inputs used by the claim theorems -/

/-- The nutrition end-to-end scenario text of the spec (§8). -/
def c1Text : String := "Energy: 250 kcal Protein: 5g Sodium: 12000mg"

/-- An OCR engine recognizing exactly the spec's nutrition scenario text
under every configuration. -/
def c1Engine : String → Except String String := fun _ => Except.ok c1Text

/-- An arbitrary well-behaved OCR engine, used to exercise the
unreadable-image path. -/
def c2Engine : String → Except String String := fun _ => Except.ok "readable text"

/-- The ingredients end-to-end scenario text of the spec (§8). -/
def c3Text : String := "Ingredients: Water, Sugar, Salt, Salt"

/-- An OCR engine recognizing exactly the spec's ingredients scenario text
under every configuration. -/
def c3Engine : String → Except String String := fun _ => Except.ok c3Text

/-- An engine whose combined-bilingual configuration errors and whose
English and Arabic configurations return texts of different lengths. -/
def c6Engine : String → Except String String := fun cfg =>
  if cfg = config_multi then Except.error "engine failure"
  else if cfg = config_eng then Except.ok "ab"
  else Except.ok "cdef"

/-- A barcode engine for which only the plain-grayscale variant decodes
(the spec's §8 barcode trial-order scenario). -/
def c7Decode : BVariant → List BSym := fun v =>
  match v with
  | BVariant.grayscale => [⟨"4006381333931", "EAN13"⟩]
  | _ => []

/-- A header followed by 80 distinct comma-separated tokens (the spec's §8
ingredient-cap scenario). -/
def bigText : String :=
  "ingredients: " ++
    String.intercalate ", " ((List.range 80).map (fun i => "tok" ++ toString (i + 1)))

end Nutriscan

/-! ## Helper lemmas -/

namespace Nutriscan

theorem cleanEntry_num (k : String) (v : ℚ) :
    cleanEntry (k, PyVal.num v) =
      if rangePass valid_nutrients (k, v) then some (k, v) else none := by
  unfold cleanEntry rangePass
  cases h : lookupRange k valid_nutrients with
  | none => simp [h]
  | some r =>
    obtain ⟨lo, hi⟩ := r
    simp [h]

theorem filterMap_cleanEntry (l : List (String × ℚ)) :
    (l.map fun p => (p.1, PyVal.num p.2)).filterMap cleanEntry =
      l.filter (rangePass valid_nutrients) := by
  induction l with
  | nil => rfl
  | cons hd tl ih =>
    obtain ⟨k, v⟩ := hd
    by_cases hp : rangePass valid_nutrients (k, v) <;>
      simp [List.filterMap_cons, List.filter_cons, cleanEntry_num, hp, ih]

theorem clean_eq_filter (l : List (String × ℚ)) :
    clean_nutrition_facts (l.map fun p => (p.1, PyVal.num p.2)) =
      l.filter (rangePass valid_nutrients) := by
  cases l with
  | nil => rfl
  | cons hd tl =>
    simpa [clean_nutrition_facts] using filterMap_cleanEntry (hd :: tl)

theorem validateEntry_eq (kv : String × ℚ) :
    validateEntry kv = if rangePass validationRanges kv then some kv else none := by
  obtain ⟨k, v⟩ := kv
  unfold validateEntry rangePass
  cases h : lookupRange k validationRanges with
  | none => simp [h]
  | some r =>
    obtain ⟨lo, hi⟩ := r
    simp [h]

theorem filterMap_validateEntry (l : List (String × ℚ)) :
    l.filterMap validateEntry = l.filter (rangePass validationRanges) := by
  induction l with
  | nil => rfl
  | cons hd tl ih =>
    by_cases hp : rangePass validationRanges hd <;>
      simp [List.filterMap_cons, List.filter_cons, validateEntry_eq, hp, ih]

theorem validate_eq_filter (l : List (String × ℚ)) :
    validate_nutrition_facts l = l.filter (rangePass validationRanges) := by
  cases l with
  | nil => rfl
  | cons hd tl =>
    simpa [validate_nutrition_facts] using filterMap_validateEntry (hd :: tl)

theorem clamp_comm (x : ℤ) : min 100 (max 0 x) = max 0 (min 100 x) := by omega

theorem clamp_nonneg (x : ℤ) : 0 ≤ min 100 (max 0 x) := by omega

theorem clamp_le_hundred (x : ℤ) : min 100 (max 0 x) ≤ 100 := by omega

theorem foldl_collectStep (engine : String → Except String String) :
    ∀ (l : List String) (acc : List String),
      l.foldl (collectStep engine) acc = acc ++ l.filterMap (keepText engine) := by
  intro l
  induction l with
  | nil => intro acc; simp
  | cons hd tl ih =>
    intro acc
    rw [List.foldl_cons, ih]
    cases h : engine hd with
    | error e => simp [collectStep, keepText, h]
    | ok t =>
      by_cases he : (pyStrip t.data).isEmpty <;>
        simp [collectStep, keepText, h, he]

theorem collectTexts_eq (engine : String → Except String String) :
    collectTexts engine = ocrConfigs.filterMap (keepText engine) := by
  simpa using foldl_collectStep engine ocrConfigs []

theorem pickLonger_cases (t u : String) : pickLonger t u = t ∨ pickLonger t u = u := by
  unfold pickLonger
  by_cases h : t.length < u.length <;> simp [h]

theorem length_le_pickLonger (t u : String) :
    t.length ≤ (pickLonger t u).length ∧ u.length ≤ (pickLonger t u).length := by
  unfold pickLonger
  by_cases h : t.length < u.length <;> simp [h] <;> omega

theorem foldl_pickLonger_mem : ∀ (ts : List String) (t : String),
    ts.foldl pickLonger t ∈ t :: ts := by
  intro ts
  induction ts with
  | nil => intro t; simp
  | cons u us ih =>
    intro t
    rw [List.foldl_cons]
    rcases List.mem_cons.mp (ih (pickLonger t u)) with h' | h'
    · rw [h']
      rcases pickLonger_cases t u with hc | hc <;> rw [hc]
      · exact List.mem_cons_self _ _
      · exact List.mem_cons_of_mem _ (List.mem_cons_self _ _)
    · exact List.mem_cons_of_mem _ (List.mem_cons_of_mem _ h')

theorem foldl_pickLonger_le : ∀ (ts : List String) (t u : String),
    u ∈ t :: ts → u.length ≤ (ts.foldl pickLonger t).length := by
  intro ts
  induction ts with
  | nil =>
    intro t u hu
    rcases List.mem_cons.mp hu with h | h
    · simp [h]
    · cases h
  | cons v vs ih =>
    intro t u hu
    rw [List.foldl_cons]
    rcases List.mem_cons.mp hu with h | h
    · calc u.length ≤ (pickLonger t v).length := h ▸ (length_le_pickLonger t v).1
        _ ≤ (vs.foldl pickLonger (pickLonger t v)).length :=
          ih _ _ (List.mem_cons_self _ _)
    · rcases List.mem_cons.mp h with h' | h'
      · calc u.length ≤ (pickLonger t v).length := h' ▸ (length_le_pickLonger t v).2
          _ ≤ (vs.foldl pickLonger (pickLonger t v)).length :=
            ih _ _ (List.mem_cons_self _ _)
      · exact ih _ _ (List.mem_cons_of_mem _ h')

theorem firstMax_mem (l : List String) (h : l ≠ []) : firstMax l ∈ l := by
  cases l with
  | nil => exact absurd rfl h
  | cons t ts => exact foldl_pickLonger_mem ts t

theorem firstMax_le (l : List String) (u : String) (hu : u ∈ l) :
    u.length ≤ (firstMax l).length := by
  cases l with
  | nil => cases hu
  | cons t ts => exact foldl_pickLonger_le ts t u hu

theorem barcodeLoop_conf (decode : BVariant → List BSym) :
    ∀ l, (barcodeLoop decode l).confidence = 0 ∨ (barcodeLoop decode l).confidence = 100 := by
  intro l
  induction l with
  | nil => left; rfl
  | cons v rest ih =>
    cases h : decode v with
    | nil => simpa [barcodeLoop, h] using ih
    | cons s ss => right; simp [barcodeLoop, h]

theorem barcodeLoop_empty (decode : BVariant → List BSym) :
    ∀ l, (∀ v ∈ l, decode v = []) → barcodeLoop decode l = ⟨none, none, 0, ""⟩ := by
  intro l
  induction l with
  | nil => intro _; rfl
  | cons v rest ih =>
    intro h
    have hv : decode v = [] := h v (List.mem_cons_self _ _)
    have hr := ih (fun w hw => h w (List.mem_cons_of_mem _ hw))
    simp [barcodeLoop, hv, hr]

theorem barcodeLoop_find (decode : BVariant → List BSym) :
    ∀ (l : List BVariant) (v : BVariant) (s : BSym) (ss : List BSym),
      l.find? (fun w => !(decode w).isEmpty) = some v → decode v = s :: ss →
      barcodeLoop decode l = ⟨some s.data, some s.symType, 100, s.data⟩ := by
  intro l
  induction l with
  | nil => intro v s ss hf _; cases hf
  | cons hd tl ih =>
    intro v s ss hf hd2
    cases h : decode hd with
    | nil =>
      rw [List.find?_cons] at hf
      simp [h] at hf
      have hr := ih v s ss hf hd2
      simpa [barcodeLoop, h] using hr
    | cons a as =>
      rw [List.find?_cons] at hf
      simp [h] at hf
      subst hf
      rw [h] at hd2
      cases hd2
      simp [barcodeLoop, h]

theorem foldE_ok (lower : List Char) :
    ∀ (ps : List (String × List Alt)) (m : List (String × ℚ)),
      ps.foldl (nutriStepE lower) (Except.ok m) =
        Except.ok (ps.foldl (nutriStep lower) m) := by
  intro ps
  induction ps with
  | nil => intro m; rfl
  | cons p rest ih =>
    intro m
    have hstep : nutriStepE lower (Except.ok m) p = Except.ok (nutriStep lower m p) := by
      unfold nutriStepE nutriStep floatE
      cases h : scanFirst p.2 lower with
      | none => simp [h]
      | some numStr =>
        cases hf : pyFloat? numStr with
        | none => simp [h, hf]
        | some v => simp [h, hf]
    rw [List.foldl_cons, List.foldl_cons, hstep, ih]

theorem mem_pyStrip {c : Char} {l : List Char} (h : c ∈ pyStrip l) : c ∈ l := by
  unfold pyStrip dropTrail at h
  rw [List.mem_reverse] at h
  have h2 := (List.dropWhile_sublist _).subset h
  rw [List.mem_reverse] at h2
  exact (List.dropWhile_sublist _).subset h2

theorem cleanTok_chars {i : List Char} {c : Char} (h : c ∈ cleanTok i) :
    keepChar c = true := by
  unfold cleanTok at h
  exact List.of_mem_filter (mem_pyStrip h)

theorem dedupGo_shape : ∀ (l seen : List (List Char)) (x : List Char),
    x ∈ dedupGo l seen → ∃ i ∈ l, x = cleanTok i := by
  intro l
  induction l with
  | nil => intro seen x h; simp [dedupGo] at h
  | cons i rest ih =>
    intro seen x h
    unfold dedupGo at h
    split at h
    · rcases List.mem_cons.mp h with h' | h'
      · exact ⟨i, List.mem_cons_self _ _, h'⟩
      · obtain ⟨j, hj, hx⟩ := ih _ x h'
        exact ⟨j, List.mem_cons_of_mem _ hj, hx⟩
    · obtain ⟨j, hj, hx⟩ := ih _ x h
      exact ⟨j, List.mem_cons_of_mem _ hj, hx⟩

theorem dedupGo_lower_notmem : ∀ (l seen : List (List Char)) (x : List Char),
    x ∈ dedupGo l seen → x.map Char.toLower ∉ seen := by
  intro l
  induction l with
  | nil => intro seen x h; simp [dedupGo] at h
  | cons i rest ih =>
    intro seen x h
    unfold dedupGo at h
    split at h
    · rename_i hcond
      rcases List.mem_cons.mp h with h' | h'
      · subst h'
        intro hmem
        simp [hmem] at hcond
      · have := ih _ x h'
        intro hmem
        exact this (List.mem_cons_of_mem _ hmem)
    · exact ih _ x h

theorem dedupGo_pairwise : ∀ (l seen : List (List Char)),
    (dedupGo l seen).Pairwise
      (fun a b => a.map Char.toLower ≠ b.map Char.toLower) := by
  intro l
  induction l with
  | nil => intro seen; simp [dedupGo]
  | cons i rest ih =>
    intro seen
    unfold dedupGo
    split
    · refine List.Pairwise.cons ?_ (ih _)
      intro y hy
      have := dedupGo_lower_notmem _ _ y hy
      intro heq
      exact this (heq ▸ List.mem_cons_self _ _)
    · exact ih _

theorem dedupGo_sublist : ∀ (l seen : List (List Char)),
    List.Sublist (dedupGo l seen) (l.map cleanTok) := by
  intro l
  induction l with
  | nil => intro seen; simp [dedupGo]
  | cons i rest ih =>
    intro seen
    unfold dedupGo
    rw [List.map_cons]
    split
    · exact List.Sublist.cons₂ _ (ih _)
    · exact List.Sublist.cons _ (ih _)

theorem dedupGo_gt2 : ∀ (l seen : List (List Char)) (x : List Char),
    x ∈ dedupGo l seen → 2 < x.length := by
  intro l
  induction l with
  | nil => intro seen x h; simp [dedupGo] at h
  | cons a rest ih =>
    intro seen x h
    unfold dedupGo at h
    split at h
    · rename_i hcond
      simp only [Bool.and_eq_true, decide_eq_true_eq] at hcond
      rcases List.mem_cons.mp h with h' | h'
      · subst h'
        exact hcond.1.2
      · exact ih _ x h'
    · exact ih _ x h

theorem dedupGo_first : ∀ (l seen : List (List Char)) (x : List Char),
    x ∈ dedupGo l seen →
    ∃ pre i post, l = pre ++ i :: post ∧ x = cleanTok i ∧
      ∀ j ∈ pre, (cleanTok j).map Char.toLower ≠ (cleanTok i).map Char.toLower := by
  intro l
  induction l with
  | nil => intro seen x h; simp [dedupGo] at h
  | cons a rest ih =>
    intro seen x h
    unfold dedupGo at h
    split at h
    · rcases List.mem_cons.mp h with h' | h'
      · exact ⟨[], a, rest, by simp, h', by simp⟩
      · obtain ⟨pre, i, post, hsplit, hx, hpre⟩ := ih _ x h'
        have hxlow : x.map Char.toLower ∉ ((cleanTok a).map Char.toLower :: seen) :=
          dedupGo_lower_notmem _ _ x h'
        refine ⟨a :: pre, i, post, by rw [hsplit]; rfl, hx, ?_⟩
        intro j hj
        rcases List.mem_cons.mp hj with hj' | hj'
        · subst hj'
          intro heq
          apply hxlow
          rw [hx, ← heq]
          exact List.mem_cons_self _ _
        · exact hpre j hj'
    · rename_i hcond
      obtain ⟨pre, i, post, hsplit, hx, hpre⟩ := ih _ x h
      have hlen : 2 < x.length := dedupGo_gt2 _ _ x h
      have hxnot : x.map Char.toLower ∉ seen := dedupGo_lower_notmem _ _ x h
      have hcond' : cleanTok a = [] ∨ ¬2 < (cleanTok a).length ∨
          (cleanTok a).map Char.toLower ∈ seen := by
        by_contra hc
        push_neg at hc
        apply hcond
        simp [List.isEmpty_iff, hc.1, hc.2.1, hc.2.2]
      refine ⟨a :: pre, i, post, by rw [hsplit]; rfl, hx, ?_⟩
      intro j hj
      rcases List.mem_cons.mp hj with hj' | hj'
      · subst hj'
        intro heq
        have hx1 : x.map Char.toLower = (cleanTok i).map Char.toLower := by rw [hx]
        have hlena : (cleanTok j).length = x.length := by
          have h2 := congrArg List.length (heq.trans hx1.symm)
          simpa using h2
        rcases hcond' with h0 | h0 | h0
        · rw [h0] at hlena
          simp at hlena
          omega
        · omega
        · apply hxnot
          rw [hx1, ← heq]
          exact h0
      · exact hpre j hj'

theorem parse_ingredients_first (text : String) (x : String)
    (hx : x ∈ parse_ingredients text) :
    ∃ pre i post, rawIngredients text = pre ++ i :: post ∧ x.data = cleanTok i ∧
      ∀ j ∈ pre, (cleanTok j).map Char.toLower ≠ (cleanTok i).map Char.toLower := by
  unfold parse_ingredients at hx
  rw [List.mem_map] at hx
  obtain ⟨l, hl, rfl⟩ := hx
  have hl' : l ∈ dedupGo (rawIngredients text) [] :=
    (List.take_sublist _ _).subset hl
  obtain ⟨pre, i, post, hsplit, hx', hpre⟩ := dedupGo_first _ _ l hl'
  exact ⟨pre, i, post, hsplit, hx', hpre⟩

end Nutriscan

/-! ## Claim theorems -/

namespace Nutriscan

/-- C1, counterexample: on the spec's own scenario text the nutrition
extraction returns a mapping that still contains `sodium = 12000` — the
RangeValidator range check is not applied before the result is produced
(only the parser's vacuous non-negativity check is), so the returned
mapping is not `{energy: 250, protein: 5}`. -/
theorem claim_C1_counterexample :
    extract_nutrition_facts (some ()) c1Engine =
      Except.ok ⟨c1Text, [("energy", 250), ("protein", 5), ("sodium", 12000)], 29⟩ ∧
    parse_nutrition_facts c1Text ≠ [("energy", 250), ("protein", 5)] := by
  constructor
  · decide
  · decide

/-- C1 (corrected): for the text `"Energy: 250 kcal Protein: 5g Sodium:
12000mg"` the nutrition extraction returns `{energy: 250, protein: 5,
sodium: 12000}` — the out-of-range sodium is kept.  The range check that
would drop it lives in `ProductService._clean_nutrition_facts` (and in the
never-invoked `ValidationService.validate_nutrition_facts`), which is
applied only when a product is created from the extracted data, and either
of those applied to the parsed mapping indeed yields exactly
`{energy: 250, protein: 5}`. -/
theorem claim_C1_amended :
    parse_nutrition_facts c1Text =
      [("energy", 250), ("protein", 5), ("sodium", 12000)] ∧
    extract_nutrition_facts (some ()) c1Engine =
      Except.ok ⟨c1Text, [("energy", 250), ("protein", 5), ("sodium", 12000)], 29⟩ ∧
    clean_nutrition_facts
        [("energy", PyVal.num 250), ("protein", PyVal.num 5),
         ("sodium", PyVal.num 12000)] =
      [("energy", 250), ("protein", 5)] ∧
    validate_nutrition_facts [("energy", 250), ("protein", 5), ("sodium", 12000)] =
      [("energy", 250), ("protein", 5)] := by
  refine ⟨by decide, by decide, by decide, by decide⟩

/-- C2, counterexample: with an unreadable image buffer every extraction
operation returns its empty structured result — no `InvalidImage` error is
propagated to the caller. -/
theorem claim_C2_counterexample :
    extract_ingredients none c2Engine = Except.ok ⟨"", [], 0⟩ ∧
    extract_nutrition_facts none c2Engine = Except.ok ⟨"", [], 0⟩ ∧
    extract_general_text none c2Engine = Except.ok ⟨"", 0⟩ := by
  exact ⟨rfl, rfl, rfl⟩

/-- C2 (corrected): an unreadable buffer makes `preprocess_image` raise
`ValueError("Could not read image")`, but each extraction operation wraps
its body in `try/except` and on that exception returns an empty structured
result instead of propagating any error; no extraction operation ever
surfaces an error to the caller. -/
theorem claim_C2_amended (engine : String → Except String String)
    (decode : BVariant → List BSym) :
    preprocess_image none = Except.error "Could not read image" ∧
    extract_ingredients none engine = Except.ok ⟨"", [], 0⟩ ∧
    extract_nutrition_facts none engine = Except.ok ⟨"", [], 0⟩ ∧
    extract_general_text none engine = Except.ok ⟨"", 0⟩ ∧
    extract_barcode none decode = Except.ok ⟨none, none, 0, ""⟩ := by
  exact ⟨rfl, rfl, rfl, rfl, rfl⟩

/-- C3, counterexample: the ingredient parse of `"Ingredients: Water,
Sugar, Salt, Salt"` is not `["Water", "Sugar", "Salt"]` (the entries come
out lowercased). -/
theorem claim_C3_counterexample :
    parse_ingredients c3Text ≠ ["Water", "Sugar", "Salt"] := by
  decide

/-- C3 (corrected): the parse of `"Ingredients: Water, Sugar, Salt, Salt"`
yields the three tokens in input order with the duplicate removed
case-insensitively, but lowercased — `["water", "sugar", "salt"]` — because
the text after the header keyword is taken from the lowercased line
(`line.lower().split(keyword)`), not from the original line. -/
theorem claim_C3_amended :
    rawIngredients c3Text = ["water".data, "sugar".data, "salt".data, "salt".data] ∧
    parse_ingredients c3Text = ["water", "sugar", "salt"] ∧
    extract_ingredients (some ()) c3Engine =
      Except.ok ⟨c3Text, ["water", "sugar", "salt"], 22⟩ := by
  refine ⟨by decide, by decide, by decide⟩

/-- C4, counterexample: `ValidationService.validate_nutrition_facts` passes
`added_sugars = 500` through unchecked (500 is far outside the claimed
0–100 added-sugars range) because its range table lists only 13 keys and
treats `added_sugars` as an unknown, merely non-negative, nutrient. -/
theorem claim_C4_counterexample :
    validate_nutrition_facts [("added_sugars", 500)] = [("added_sugars", 500)] ∧
    lookupRange "added_sugars" validationRanges = none := by
  exact ⟨by decide, by decide⟩

/-- C4 (corrected): on numeric mappings both range validators act as pure
filters — each entry is kept unchanged or dropped entirely, never clamped;
known keys pass exactly when inside their table range and unknown keys
exactly when non-negative.  But only `ProductService._clean_nutrition_facts`
checks all 14 keys including `added_sugars` (range 0–100);
`ValidationService.validate_nutrition_facts` has a 13-key table without
`added_sugars`, which therefore passes through whenever non-negative. -/
theorem claim_C4_amended (l : List (String × ℚ)) :
    clean_nutrition_facts (l.map fun p => (p.1, PyVal.num p.2)) =
      l.filter (rangePass valid_nutrients) ∧
    validate_nutrition_facts l = l.filter (rangePass validationRanges) ∧
    lookupRange "added_sugars" valid_nutrients = some (0, 100) ∧
    lookupRange "added_sugars" validationRanges = none ∧
    valid_nutrients.length = 14 ∧
    validationRanges.length = 13 := by
  exact ⟨clean_eq_filter l, validate_eq_filter l, by decide, by decide, by decide, by decide⟩

/-- C5, counterexample: on `"a_ b_ c_ d_"` the code scores 12 while the
claimed formula (special characters = neither alphanumeric nor whitespace)
scores 2: the code's `[^\w\s]` class does not count underscores as special,
the claim's "not alphanumeric" does. -/
theorem claim_C5_counterexample :
    calculate_confidence "a_ b_ c_ d_" = 12 ∧
    confidenceClaimed "a_ b_ c_ d_" = 2 ∧
    calculate_confidence "a_ b_ c_ d_" ≠ confidenceClaimed "a_ b_ c_ d_" := by
  refine ⟨by decide, by decide, by decide⟩

/-- C5 (corrected): the scorer returns 0 when the trimmed text has fewer
than 5 characters, 20 when there are fewer than 2 words, and otherwise
`clamp(min(70, words·3) + min(25, keywords·5) - ⌊special_ratio·30⌋, 0, 100)`
where the special-character ratio counts characters that are neither word
characters (alphanumeric or underscore, the `\w` class) nor whitespace; the
result always lies in [0, 100]. -/
theorem claim_C5_amended (t : String) :
    calculate_confidence t = confidenceAmended t ∧
    0 ≤ calculate_confidence t ∧ calculate_confidence t ≤ 100 := by
  have e1 : (t.data.isEmpty || decide ((pyStrip t.data).length < 5)) =
      decide ((pyStrip t.data).length < 5) := by
    cases h : t.data with
    | nil => decide
    | cons a l => simp
  unfold calculate_confidence confidenceAmended
  dsimp only
  rw [e1]
  simp only [decide_eq_true_eq]
  by_cases h5 : (pyStrip t.data).length < 5
  · refine ⟨by simp [h5], by simp [h5], by simp [h5]⟩
  · simp only [if_neg h5]
    by_cases hw : (pySplit t.data).length < 2
    · refine ⟨by simp [hw], by simp [hw], by simp [hw]⟩
    · simp only [if_neg hw]
      exact ⟨clamp_comm _, clamp_nonneg _, clamp_le_hundred _⟩

/-- C6: the multi-configuration extraction runs the configurations in the
fixed order combined-bilingual, English-only, Arabic-only; an erroring
configuration contributes nothing (it is skipped without failing the
call, as `collectTexts` = the per-configuration `keepText` contributions
in trial order); among the kept non-empty texts the longest is selected;
and when every configuration fails or returns whitespace-only text the
result is text `""` with confidence 0 (and no parsed content). -/
theorem claim_C6_multi_config (engine : String → Except String String) :
    ocrConfigs = [config_multi, config_eng, config_ara] ∧
    collectTexts engine = ocrConfigs.filterMap (keepText engine) ∧
    extract_ingredients (some ()) engine =
      Except.ok ⟨firstMax (collectTexts engine),
        parse_ingredients (firstMax (collectTexts engine)),
        calculate_confidence (firstMax (collectTexts engine))⟩ ∧
    extract_nutrition_facts (some ()) engine =
      Except.ok ⟨firstMax (collectTexts engine),
        parse_nutrition_facts (firstMax (collectTexts engine)),
        calculate_confidence (firstMax (collectTexts engine))⟩ ∧
    (collectTexts engine = [] →
      extract_ingredients (some ()) engine = Except.ok ⟨"", [], 0⟩ ∧
      extract_nutrition_facts (some ()) engine = Except.ok ⟨"", [], 0⟩) ∧
    (collectTexts engine ≠ [] →
      firstMax (collectTexts engine) ∈ collectTexts engine ∧
      ∀ t ∈ collectTexts engine, t.length ≤ (firstMax (collectTexts engine)).length) := by
  refine ⟨rfl, collectTexts_eq engine, rfl, rfl, ?_, ?_⟩
  · intro h
    constructor
    · have h3 : extract_ingredients (some ()) engine =
          Except.ok ⟨firstMax (collectTexts engine),
            parse_ingredients (firstMax (collectTexts engine)),
            calculate_confidence (firstMax (collectTexts engine))⟩ := rfl
      rw [h3, h]
      decide
    · have h3 : extract_nutrition_facts (some ()) engine =
          Except.ok ⟨firstMax (collectTexts engine),
            parse_nutrition_facts (firstMax (collectTexts engine)),
            calculate_confidence (firstMax (collectTexts engine))⟩ := rfl
      rw [h3, h]
      decide
  · intro hne
    exact ⟨firstMax_mem _ hne, fun t ht => firstMax_le _ t ht⟩

/-- C6, witness: with an engine whose combined configuration errors and
whose English/Arabic configurations return `"ab"` and `"cdef"`, the
selected text is a member of the kept texts and is at least as long as the
kept text `"ab"`. -/
theorem claim_C6_multi_config_witness :
    firstMax (collectTexts c6Engine) ∈ collectTexts c6Engine ∧
    "ab".length ≤ (firstMax (collectTexts c6Engine)).length :=
  ⟨((claim_C6_multi_config c6Engine).2.2.2.2.2 (by decide)).1,
   ((claim_C6_multi_config c6Engine).2.2.2.2.2 (by decide)).2 "ab" (by decide)⟩

/-- C7: the barcode decoder tries the variants in the fixed order
untouched input, preprocessor output, plain grayscale; the result's
confidence is always exactly 0 or 100; when no variant yields a symbol
(or the image is unreadable) the result is absent with confidence 0; and
when some variant yields a symbol, the result carries the payload and
symbology of the first symbol of the first such variant, with
confidence 100. -/
theorem claim_C7_barcode (img : Option PImg) (decode : BVariant → List BSym) :
    barcode_approaches =
      [BVariant.original, BVariant.preprocessed, BVariant.grayscale] ∧
    extract_barcode img decode = Except.ok (extract_barcode_core img decode) ∧
    ((extract_barcode_core img decode).confidence = 0 ∨
      (extract_barcode_core img decode).confidence = 100) ∧
    ((∀ v ∈ barcode_approaches, decode v = []) →
      extract_barcode_core img decode = ⟨none, none, 0, ""⟩) ∧
    (∀ v s ss, barcode_approaches.find? (fun w => !(decode w).isEmpty) = some v →
      decode v = s :: ss →
      extract_barcode_core (some ()) decode =
        ⟨some s.data, some s.symType, 100, s.data⟩) := by
  refine ⟨rfl, rfl, ?_, ?_, ?_⟩
  · cases img with
    | none => left; rfl
    | some i => exact barcodeLoop_conf decode barcode_approaches
  · intro h
    cases img with
    | none => rfl
    | some i => exact barcodeLoop_empty decode barcode_approaches h
  · intro v s ss hf hd
    exact barcodeLoop_find decode barcode_approaches v s ss hf hd

/-- C7, witness: an image where only the grayscale variant decodes still
yields that variant's symbol with confidence 100 (the spec's §8 barcode
trial-order scenario). -/
theorem claim_C7_barcode_witness :
    extract_barcode_core (some ()) c7Decode =
      ⟨some "4006381333931", some "EAN13", 100, "4006381333931"⟩ :=
  (claim_C7_barcode (some ()) c7Decode).2.2.2.2 BVariant.grayscale
    ⟨"4006381333931", "EAN13"⟩ [] (by decide) (by decide)

set_option maxRecDepth 200000 in
/-- C8: for every input text the parsed ingredient list has at most 50
entries, its entries are pairwise distinct after lowercasing, and it is an
order-preserving subsequence of the cleaned raw token sequence; the first
occurrence wins: every output entry is the cleaned form of a raw token
none of whose predecessors shares its lowercase form (so on raw tokens
`["Salt", "Pepper", "salt"]` the dedup loop keeps `["Salt", "Pepper"]`,
cased as first seen, not `["Pepper", "salt"]`); and the spec's scenario of
80 distinct comma-separated tokens after a recognized header yields
exactly 50 entries. -/
theorem claim_C8_cap_dedup_order :
    (∀ text : String,
      (parse_ingredients text).length ≤ 50 ∧
      (parse_ingredients text).Pairwise
        (fun a b => a.data.map Char.toLower ≠ b.data.map Char.toLower) ∧
      List.Sublist (parse_ingredients text)
        ((rawIngredients text).map (fun i => String.mk (cleanTok i)))) ∧
    (∀ (text : String) (x : String), x ∈ parse_ingredients text →
      ∃ pre i post, rawIngredients text = pre ++ i :: post ∧
        x.data = cleanTok i ∧
        ∀ j ∈ pre, (cleanTok j).map Char.toLower ≠ (cleanTok i).map Char.toLower) ∧
    dedupGo ["Salt".data, "Pepper".data, "salt".data] [] =
      ["Salt".data, "Pepper".data] ∧
    (parse_ingredients bigText).length = 50 := by
  refine ⟨?_, ?_, by decide, by decide⟩
  · intro text
    refine ⟨?_, ?_, ?_⟩
    · unfold parse_ingredients
      rw [List.length_map]
      simp [List.length_take]
    · unfold parse_ingredients
      rw [List.pairwise_map]
      exact (dedupGo_pairwise (rawIngredients text) []).sublist (List.take_sublist _ _)
    · unfold parse_ingredients
      have h1 := List.take_sublist 50 (dedupGo (rawIngredients text) [])
      have h2 := dedupGo_sublist (rawIngredients text) []
      have h3 := (h1.trans h2).map String.mk
      simpa [List.map_map, Function.comp] using h3
  · exact parse_ingredients_first

/-- C8, witness: the entry `"salt"` of the parse of `"Ingredients: Water,
Sugar, Salt, Salt"` comes from the first of the two raw `salt` tokens — no
raw token before it shares its lowercase form. -/
theorem claim_C8_cap_dedup_order_witness :
    ∃ pre i post, rawIngredients c3Text = pre ++ i :: post ∧
      ("salt" : String).data = cleanTok i ∧
      ∀ j ∈ pre, (cleanTok j).map Char.toLower ≠ (cleanTok i).map Char.toLower :=
  claim_C8_cap_dedup_order.2.1 c3Text "salt" (by decide)

/-- C9: the parsers are total — on every input string (malformed or not)
the nutrition parser in the `Except` monad returns `Except.ok` (the
per-nutrient `try/except` catches every `float` conversion error, so no
input makes it raise) and agrees with the pure parser, and the ingredient
parser likewise returns a list for every input. -/
theorem claim_C9_parsers_total (text : String) :
    parse_nutrition_factsE text = Except.ok (parse_nutrition_facts text) ∧
    (∃ m, parse_nutrition_factsE text = Except.ok m) ∧
    (∃ l, parse_ingredients text = l) := by
  have h : parse_nutrition_factsE text = Except.ok (parse_nutrition_facts text) := by
    unfold parse_nutrition_factsE parse_nutrition_facts
    by_cases he : text.data.isEmpty
    · simp [he]
    · simp [he, foldE_ok]
  exact ⟨h, ⟨_, h⟩, ⟨_, rfl⟩⟩

/-- C10: every entry of every parsed ingredient list contains only word
characters, whitespace, hyphens and parentheses — every other character is
deleted from anywhere inside the token (not only at its edges) by the
cleanup `re.sub(r'[^\w\s\-()]', '', ...)` before deduplication; in
particular `"wa%ter"` comes out as `"water"`. -/
theorem claim_C10_charset :
    (∀ (text : String) (s : String), s ∈ parse_ingredients text →
      ∀ c ∈ s.data, pyWordChar c = true ∨ pySpace c = true ∨
        c = '-' ∨ c = '(' ∨ c = ')') ∧
    parse_ingredients "ingredients: wa%ter" = ["water"] := by
  constructor
  · intro text s hs c hc
    unfold parse_ingredients at hs
    rw [List.mem_map] at hs
    obtain ⟨l, hl, rfl⟩ := hs
    have hl' : l ∈ dedupGo (rawIngredients text) [] :=
      (List.take_sublist _ _).subset hl
    obtain ⟨i, _, rfl⟩ := dedupGo_shape _ _ _ hl'
    have hck : keepChar c = true := cleanTok_chars (by simpa using hc)
    unfold keepChar at hck
    simpa [Bool.or_eq_true, decide_eq_true_eq, or_assoc] using hck
  · decide

/-- C10, witness: the first letter of the single entry parsed from
`"ingredients: wa%ter"` satisfies the character-class invariant. -/
theorem claim_C10_charset_witness :
    pyWordChar 'w' = true ∨ pySpace 'w' = true ∨
      'w' = '-' ∨ 'w' = '(' ∨ 'w' = ')' :=
  claim_C10_charset.1 "ingredients: wa%ter" "water" (by decide) 'w' (by decide)

end Nutriscan

